import Mathlib

/-!
Shallow embedding of the arena-backed red-black tree from `src/rbt.rs`.

The Rust `Tree<T>` stores nodes in parallel vectors (`graph`, `edge_list`,
`color`), a LIFO free list (`empty`, a `LinkedList<usize>` used from the
back), and an optional root index.  We model values as `Int` (the driver in
`main.rs` instantiates `T = i32`), vector indexing as `List.getD`/`List.set`
(total; every concrete run below stays in bounds), `push_back` as append at
the back and `pop_back` as `getLast?`/`dropLast`.

Recursive Rust functions become fuel-indexed Lean functions returning
`Option`; `none` signals either fuel exhaustion or a `panic!`/`unreachable!`
branch.  All state mutation is threaded explicitly, one field update per
Rust statement, in the source's statement order.
-/

namespace RBT

/-- One entry of `edge_list`: the Rust `Vec<Option<usize>>` of length three,
with index 0 the parent, 1 the left child, 2 the right child. -/
structure Link where
  parent : Option Nat
  left : Option Nat
  right : Option Nat
deriving Repr, DecidableEq

/-- The Rust `Tree<T>` with `T = i32` (modelled as `Int`). -/
structure Tree where
  graph : List Int
  edge_list : List Link
  empty : List Nat
  color : List Bool
  root : Option Nat
deriving Repr, DecidableEq

/-- Read `self.edge_list[i]`. -/
def getE (t : Tree) (i : Nat) : Link :=
  t.edge_list.getD i ⟨none, none, none⟩

/-- Write `self.edge_list[i]`. -/
def setE (t : Tree) (i : Nat) (e : Link) : Tree :=
  { t with edge_list := t.edge_list.set i e }

/-- Read `self.color[i]` (`true` = red, `false` = black). -/
def getColor (t : Tree) (i : Nat) : Bool :=
  t.color.getD i false

/-- Write `self.color[i]`. -/
def setColor (t : Tree) (i : Nat) (b : Bool) : Tree :=
  { t with color := t.color.set i b }

/-- Read `self.graph[i].data`. -/
def getData (t : Tree) (i : Nat) : Int :=
  t.graph.getD i 0

/-- Rust `Tree::new()`. -/
def Tree.new : Tree :=
  { graph := [], edge_list := [], empty := [], color := [], root := none }

/-- Rust `Tree::with_capacity(size)`: capacity hints do not affect the state model. -/
def Tree.with_capacity (_size : Nat) : Tree :=
  Tree.new

/-- Rust `contains_recursive`: outer `none` is fuel exhaustion, `some none` is
"not found", `some (some i)` is "found at slot i". -/
def contains_recursive : Nat → Tree → Option Nat → Int → Option (Option Nat)
  | 0, _, _, _ => none
  | fuel+1, t, index, input =>
    match index with
    | some idx =>
      let d := getData t idx
      if d = input then some (some idx)
      else if d > input then contains_recursive fuel t (getE t idx).left input
      else contains_recursive fuel t (getE t idx).right input
    | none => some none

/-- Rust `contains`. -/
def contains (fuel : Nat) (t : Tree) (input : Int) : Option Bool :=
  (contains_recursive fuel t t.root input).map Option.isSome

/-- Rust `insert_helper`: returns the mutated tree together with the pair
`(ret, is_empty)` the Rust function returns. -/
def insert_helper : Nat → Tree → Int → Option Nat → Option (Tree × Option Nat × Bool)
  | 0, _, _, _ => none
  | fuel+1, t, input, index =>
    match index with
    | none => none
    | some idx => do
      let s1 ←
        if input < getData t idx then
          if (getE t idx).left.isSome then
            insert_helper fuel t input (getE t idx).left
          else
            if t.empty.isEmpty then
              let ret : Option Nat := some t.graph.length
              let t1 := setE t idx { getE t idx with left := ret }
              some ({ t1 with edge_list := t1.edge_list ++ [⟨index, none, none⟩],
                              color := t1.color ++ [true] }, ret, true)
            else
              let ret := t.empty.getLast?
              let t1 := { t with empty := t.empty.dropLast }
              let t2 := setE t1 idx { getE t1 idx with left := ret }
              match ret with
              | some r => some (setColor (setE t2 r ⟨index, none, none⟩) r true, ret, false)
              | none => none
        else
          some (t, none, true)
      let (ta, ret1, ise1) := s1
      if input > getData ta idx then
        if (getE ta idx).right.isSome then
          insert_helper fuel ta input (getE ta idx).right
        else
          if ta.empty.isEmpty then
            let ret : Option Nat := some ta.graph.length
            let t1 := setE ta idx { getE ta idx with right := ret }
            some ({ t1 with edge_list := t1.edge_list ++ [⟨index, none, none⟩],
                            color := t1.color ++ [true] }, ret, true)
          else
            let ret := ta.empty.getLast?
            let t1 := { ta with empty := ta.empty.dropLast }
            let t2 := setE t1 idx { getE t1 idx with right := ret }
            match ret with
            | some r => some (setColor (setE t2 r ⟨index, none, none⟩) r true, ret, false)
            | none => none
      else
        some (ta, ret1, ise1)

/-- Rust `left_left_rotation` ("right rotation along the grandfather"): `idx`
moves up over its parent; a parentless `idx` is the `unreachable!()` arm. -/
def left_left_rotation (t : Tree) (idx : Nat) : Option Tree :=
  let index := some idx
  match (getE t idx).parent with
  | some p =>
    let t1 :=
      match (getE t p).parent with
      | some g =>
        if (getE t g).left = (getE t idx).parent then
          setE t g { getE t g with left := index }
        else
          setE t g { getE t g with right := index }
      | none => { t with root := index }
    let t2 := setE t1 p { getE t1 p with left := (getE t1 idx).right }
    let t3 :=
      match (getE t2 idx).right with
      | some r => setE t2 r { getE t2 r with parent := (getE t2 idx).parent }
      | none => t2
    let t4 := setE t3 idx { getE t3 idx with right := (getE t3 idx).parent }
    let t5 := setE t4 idx { getE t4 idx with parent := (getE t4 p).parent }
    some (setE t5 p { getE t5 p with parent := index })
  | none => none

/-- Rust `right_right_rotation`: mirror image of `left_left_rotation`. -/
def right_right_rotation (t : Tree) (idx : Nat) : Option Tree :=
  let index := some idx
  match (getE t idx).parent with
  | some p =>
    let t1 :=
      match (getE t p).parent with
      | some g =>
        if (getE t g).left = (getE t idx).parent then
          setE t g { getE t g with left := index }
        else
          setE t g { getE t g with right := index }
      | none => { t with root := index }
    let t2 := setE t1 p { getE t1 p with right := (getE t1 idx).left }
    let t3 :=
      match (getE t2 idx).left with
      | some l => setE t2 l { getE t2 l with parent := (getE t2 idx).parent }
      | none => t2
    let t4 := setE t3 idx { getE t3 idx with left := (getE t3 idx).parent }
    let t5 := setE t4 idx { getE t4 idx with parent := (getE t4 p).parent }
    some (setE t5 p { getE t5 p with parent := index })
  | none => none

/-- Rust `left_right_rotation`: the double rotation; note the source writes the
grandfather's LEFT child unconditionally (its side test is commented out). -/
def left_right_rotation (t : Tree) (index : Nat) : Option Tree :=
  let idx := some index
  match (getE t index).right with
  | some child => do
    let t1 := setE t child { getE t child with parent := (getE t index).parent }
    let t2 := setE t1 index { getE t1 index with parent := (getE t1 index).right }
    let t3 := setE t2 index { getE t2 index with right := (getE t2 child).left }
    let t4 :=
      match (getE t3 child).left with
      | some lc => setE t3 lc { getE t3 lc with parent := idx }
      | none => t3
    let t5 ←
      match (getE t4 child).parent with
      | some g => some (setE t4 g { getE t4 g with left := some child })
      | none => none
    left_left_rotation (setE t5 child { getE t5 child with left := idx }) child
  | none => none

/-- Rust `right_left_rotation`: mirror of `left_right_rotation`; the grandfather's
RIGHT child is written unconditionally. -/
def right_left_rotation (t : Tree) (index : Nat) : Option Tree :=
  let idx := some index
  match (getE t index).left with
  | some child => do
    let t1 := setE t child { getE t child with parent := (getE t index).parent }
    let t2 := setE t1 index { getE t1 index with parent := (getE t1 index).left }
    let t3 := setE t2 index { getE t2 index with left := (getE t2 child).right }
    let t4 :=
      match (getE t3 child).right with
      | some rc => setE t3 rc { getE t3 rc with parent := idx }
      | none => t3
    let t5 ←
      match (getE t4 child).parent with
      | some g => some (setE t4 g { getE t4 g with right := some child })
      | none => none
    right_right_rotation (setE t5 child { getE t5 child with right := idx }) child
  | none => none

/-- Rust `insert_rebalance`: the upward recoloring/rotation fixup.  Note that in
the "parent is the right branch" arm the source again inspects
`edge_list[g][2]` (the parent itself) as the uncle. -/
def insert_rebalance : Nat → Tree → Nat → Option Tree
  | 0, _, _ => none
  | fuel+1, t, index =>
    match (getE t index).parent with
    | some p =>
      match (getE t p).parent with
      | some g =>
        if (getE t g).left = some p then
          match (getE t g).right with
          | some u =>
            if getColor t u then
              insert_rebalance fuel (setColor (setColor (setColor t u false) p false) g true) g
            else
              if (getE t p).left = some index then left_left_rotation t p
              else left_right_rotation t p
          | none =>
              if (getE t p).left = some index then left_left_rotation t p
              else left_right_rotation t p
        else
          match (getE t g).right with
          | some u =>
            if getColor t u then
              insert_rebalance fuel (setColor (setColor (setColor t u false) p false) g true) g
            else
              if (getE t p).left = some index then right_left_rotation t p
              else right_right_rotation t p
          | none =>
              if (getE t p).left = some index then right_left_rotation t p
              else right_right_rotation t p
      | none => some t
    | none => some t

/-- Rust `insert`. -/
def insert (fuel : Nat) (t : Tree) (input : Int) : Option Tree :=
  match t.root with
  | none =>
    if !t.empty.isEmpty then
      match t.empty.getLast? with
      | some root_unwrapped =>
        some { graph := t.graph.set root_unwrapped input,
               edge_list := t.edge_list.set root_unwrapped ⟨none, none, none⟩,
               empty := t.empty.dropLast,
               color := t.color.set root_unwrapped false,
               root := some root_unwrapped }
      | none => none
    else
      some { graph := t.graph ++ [input],
             edge_list := t.edge_list ++ [⟨none, none, none⟩],
             empty := t.empty,
             color := t.color ++ [false],
             root := some 0 }
  | some _ => do
    let (t1, in_pnt, is_empty) ← insert_helper fuel t input t.root
    match in_pnt with
    | some i =>
      insert_rebalance fuel
        (if is_empty then { t1 with graph := t1.graph ++ [input] }
         else { t1 with graph := t1.graph.set i input }) i
    | none => some t1

/-- Rust `get_in_order_successor`: follow left links down. -/
def get_in_order_successor : Nat → Tree → Nat → Option Nat
  | 0, _, _ => none
  | fuel+1, t, index =>
    match (getE t index).left with
    | some idx => get_in_order_successor fuel t idx
    | none => some index

/-- Rust `remove_helper`: the deletion deficiency fixup.  `left` says the node
passed (the sibling of the deficient side) is its parent's left child. -/
def remove_helper (t : Tree) (index : Option Nat) (left : Bool) : Option Tree :=
  match index with
  | some idx =>
    let left_color :=
      match (getE t idx).left with
      | some lc => getColor t lc
      | none => false
    let right_color :=
      match (getE t idx).right with
      | some rc => getColor t rc
      | none => false
    if !(getColor t idx) then
      if left then
        if left_color then left_left_rotation t idx
        else if right_color then left_right_rotation t idx
        else some t
      else
        if right_color then right_right_rotation t idx
        else if left_color then right_left_rotation t idx
        else some t
    else
      if left then left_left_rotation t idx
      else right_right_rotation t idx
  | none => some t

/-- Rust `remove_recursive`.  The source's statement order is kept: in particular,
in the one-child cases the parent link is rewritten (using
`edge_list[lc_idx][1]` in the left-child case, exactly as the source does)
before `remove_helper` runs and before the promoted child's parent link and
color are fixed. -/
def remove_recursive : Nat → Tree → Option Nat → Int → Option Tree
  | 0, _, _, _ => none
  | fuel+1, t, start, elem => do
    let index ←
      if start = t.root then contains_recursive (fuel+1) t start elem
      else some start
    match index with
    | some idx =>
      let lcn := (getE t idx).left.isNone
      let rcn := (getE t idx).right.isNone
      if lcn && rcn then
        let t1 :=
          match (getE t idx).parent with
          | some p =>
            if (getE t p).left = some idx then setE t p { getE t p with left := none }
            else setE t p { getE t p with right := none }
          | none => { t with root := none }
        some { t1 with empty := t1.empty ++ [idx] }
      else if lcn && !rcn then do
        let rc_idx ← (getE t idx).right
        let t1 ←
          match (getE t idx).parent with
          | some p =>
            if (getE t p).left = some idx then
              let ta := setE t p { getE t p with left := (getE t idx).right }
              if !(getColor ta idx) && !(getColor ta rc_idx) then
                remove_helper ta (getE ta p).right false
              else some ta
            else
              let ta := setE t p { getE t p with right := (getE t idx).right }
              if !(getColor ta idx) && !(getColor ta rc_idx) then
                remove_helper ta (getE ta p).left true
              else some ta
          | none =>
            some (setColor { t with root := (getE t idx).right } rc_idx false)
        let t2 := { t1 with empty := t1.empty ++ [idx] }
        let rc2 ← (getE t2 idx).right
        let t3 := setE t2 rc2 { getE t2 rc2 with parent := (getE t2 idx).parent }
        some (if getColor t3 idx || getColor t3 rc2 then setColor t3 rc2 false else t3)
      else if rcn && !lcn then do
        let lc_idx ← (getE t idx).left
        let t1 ←
          match (getE t idx).parent with
          | some p =>
            if (getE t p).left = some idx then
              let ta := setE t p { getE t p with left := (getE t lc_idx).left }
              if !(getColor ta idx) && !(getColor ta lc_idx) then
                remove_helper ta (getE ta p).right false
              else some ta
            else
              let ta := setE t p { getE t p with right := (getE t lc_idx).left }
              if !(getColor ta idx) && !(getColor ta lc_idx) then
                remove_helper ta (getE ta p).left true
              else some ta
          | none =>
            some (setColor { t with root := (getE t idx).left } lc_idx false)
        let t2 := { t1 with empty := t1.empty ++ [idx] }
        let t3 := setE t2 lc_idx { getE t2 lc_idx with parent := (getE t2 idx).parent }
        some (if getColor t3 idx || getColor t3 lc_idx then setColor t3 lc_idx false else t3)
      else do
        let rc ← (getE t idx).right
        let ios ← get_in_order_successor (fuel+1) t rc
        let ios_c := getColor t ios
        let in_order_successor := some ios
        let t1 :=
          match (getE t idx).parent with
          | some p =>
            if (getE t p).left = some idx then
              setE t p { getE t p with left := in_order_successor }
            else
              setE t p { getE t p with right := in_order_successor }
          | none => { t with root := in_order_successor }
        let tmp_list : Link := getE t1 ios
        let t4 ←
          if (getE t1 idx).right = in_order_successor then
            let t2 := setE t1 ios ⟨(getE t1 idx).parent, (getE t1 idx).left, some idx⟩
            some (setE t2 idx ⟨in_order_successor, tmp_list.left, tmp_list.right⟩)
          else
            let t2 := setE t1 ios ⟨(getE t1 idx).parent, (getE t1 idx).left, (getE t1 idx).right⟩
            let t3 := setE t2 idx ⟨tmp_list.parent, tmp_list.left, tmp_list.right⟩
            match tmp_list.parent with
            | some ios_p =>
              if (getE t3 ios_p).left = in_order_successor then
                some (setE t3 ios_p { getE t3 ios_p with left := some idx })
              else
                some (setE t3 ios_p { getE t3 ios_p with right := some idx })
            | none => none
        let t5 :=
          match (getE t4 ios).left with
          | some lc => setE t4 lc { getE t4 lc with parent := in_order_successor }
          | none => t4
        let t6 :=
          match (getE t5 ios).right with
          | some rc2 => setE t5 rc2 { getE t5 rc2 with parent := in_order_successor }
          | none => t5
        let t7 := setColor t6 ios (getColor t6 idx)
        let t8 := setColor t7 idx ios_c
        remove_recursive fuel t8 (some idx) elem
    | none => some t

/-- Rust `remove`. -/
def remove (fuel : Nat) (t : Tree) (elem : Int) : Option Tree :=
  remove_recursive fuel t t.root elem

/-- Rust `ino_recursive`: left, node, right. -/
def ino_recursive : Nat → Tree → Option Nat → Option (List Int)
  | 0, _, _ => none
  | fuel+1, t, index =>
    match index with
    | some i => do
      let l ← ino_recursive fuel t (getE t i).left
      let r ← ino_recursive fuel t (getE t i).right
      some (l ++ getData t i :: r)
    | none => some []

/-- Rust `in_order`. -/
def in_order (fuel : Nat) (t : Tree) : Option (List Int) :=
  match t.root with
  | none => some []
  | some _ => ino_recursive fuel t t.root

/-- Rust `pre_recursive`: node, left, right. -/
def pre_recursive : Nat → Tree → Option Nat → Option (List Int)
  | 0, _, _ => none
  | fuel+1, t, index =>
    match index with
    | some i => do
      let l ← pre_recursive fuel t (getE t i).left
      let r ← pre_recursive fuel t (getE t i).right
      some (getData t i :: (l ++ r))
    | none => some []

/-- Rust `pre_order`. -/
def pre_order (fuel : Nat) (t : Tree) : Option (List Int) :=
  match t.root with
  | none => some []
  | some _ => pre_recursive fuel t t.root

/-- Rust `post_recursive`: left, right, node. -/
def post_recursive : Nat → Tree → Option Nat → Option (List Int)
  | 0, _, _ => none
  | fuel+1, t, index =>
    match index with
    | some i => do
      let l ← post_recursive fuel t (getE t i).left
      let r ← post_recursive fuel t (getE t i).right
      some ((l ++ r) ++ [getData t i])
    | none => some []

/-- Rust `post_order`. -/
def post_order (fuel : Nat) (t : Tree) : Option (List Int) :=
  match t.root with
  | none => some []
  | some _ => post_recursive fuel t t.root

/-- Fold a list of values through `insert`, as the driver in `main.rs` does. -/
def insertList (fuel : Nat) : Tree → List Int → Option Tree
  | t, [] => some t
  | t, v :: vs => do insertList fuel (← insert fuel t v) vs

/-- Spec §8 checker: the root, when present, is black. -/
def rootBlack (t : Tree) : Bool :=
  match t.root with
  | some r => !(getColor t r)
  | none => true

/-- A tree whose root is a black node with two black children: a concrete
all-black sibling configuration. -/
def tAllBlack : Tree :=
  { graph := [2, 1, 3],
    edge_list := [⟨none, some 1, some 2⟩, ⟨some 0, none, none⟩, ⟨some 0, none, none⟩],
    empty := [], color := [false, false, false], root := some 0 }

/-- A black root with a red left child, on which both single rotations
complete. -/
def tRot : Tree :=
  { graph := [5, 3], edge_list := [⟨none, some 1, none⟩, ⟨some 0, none, none⟩],
    empty := [], color := [false, true], root := some 0 }

/-- The result of `left_left_rotation tRot 1`. -/
def tRotLL : Tree :=
  { graph := [5, 3], edge_list := [⟨some 1, none, none⟩, ⟨none, none, some 0⟩],
    empty := [], color := [false, true], root := some 1 }

/-- The result of `right_right_rotation tRot 1`. -/
def tRotRR : Tree :=
  { graph := [5, 3], edge_list := [⟨some 1, some 1, none⟩, ⟨none, some 0, none⟩],
    empty := [], color := [false, true], root := some 1 }

/-- A one-node tree holding 2. -/
def tOne : Tree :=
  { graph := [2], edge_list := [⟨none, none, none⟩], empty := [],
    color := [false], root := some 0 }

/-- C1: refuted.  After inserting 4, 2, 6, 1 and removing 2, the values still
present are 1, 4 and 6 (1 was inserted and never removed), yet `in_order`
returns only [4, 6] and `contains 1` is false: removing the node holding 2
silently drops its one-child subtree holding 1. -/
theorem in_order_misses_present_value :
    ((insertList 30 Tree.new [4, 2, 6, 1]).bind (fun t => remove 30 t 2)).bind
        (in_order 30) = some [4, 6] ∧
    ((insertList 30 Tree.new [4, 2, 6, 1]).bind (fun t => remove 30 t 2)).bind
        (fun t => contains 30 t 1) = some false := by
  constructor <;> decide

/-- C2: refuted.  After inserting 3, 2, 1 into an empty tree the completed
insert leaves the root (slot 1, holding 2) red: `insert_rebalance` never
forces the root black, and the single rotations never swap colors. -/
theorem root_red_after_inserts :
    (insertList 30 Tree.new [3, 2, 1]).map rootBlack = some false := by
  decide

/-- C4: refuted.  After inserting 4, 2, 6, 1, slot 1 (value 2) has exactly
one child, the left child slot 3 (value 1), and its parent is the root
slot 0.  Removing 2 is supposed to splice slot 3 into slot 1's position, but
the parent's link ends up `none` (the source writes `edge_list[lc_idx][1]`,
the child's own left child, instead of the child), while slot 3 still
carries the inherited parent link — the child is orphaned, not spliced. -/
theorem one_child_splice_broken :
    (insertList 30 Tree.new [4, 2, 6, 1]).map
        (fun t => ((getE t 1).left, (getE t 1).right, (getE t 1).parent)) =
      some (some 3, none, some 0) ∧
    ((insertList 30 Tree.new [4, 2, 6, 1]).bind (fun t => remove 30 t 2)).map
        (fun t => ((getE t 0).left, (getE t 3).parent)) =
      some (none, some 0) := by
  constructor <;> decide

/-- C5: refuted in the right-branch case.  After inserting 2, 1, 3 the root
slot 0 has left child slot 1 (value 1, red) and right child slot 2
(value 3, red).  Inserting 4 goes below slot 2, so the parent is the RIGHT
child of the grandparent and the uncle is slot 1; the fixup should recolor
uncle and parent black and grandparent red, but the source reads
`edge_list[g][2]` (the parent itself) as the uncle, so slot 1 stays red. -/
theorem uncle_red_right_branch_not_recolored :
    (insertList 30 Tree.new [2, 1, 3]).map
        (fun t => ((getE t 0).left, (getE t 0).right, getColor t 1, getColor t 2)) =
      some (some 1, some 2, true, true) ∧
    (insertList 30 Tree.new [2, 1, 3, 4]).map
        (fun t => (getColor t 1, getColor t 2, getColor t 0)) =
      some (true, false, true) := by
  constructor <;> decide

/-- C8: confirmed.  Scenario A: inserting 40, 10, 20, 30, 50, 45, 11, 55,
60, 65, 70, 66 in that order makes `in_order` return
10, 11, 20, 30, 40, 45, 50, 55, 60, 65, 66, 70. -/
theorem scenario_a_in_order :
    (insertList 30 Tree.new [40, 10, 20, 30, 50, 45, 11, 55, 60, 65, 70, 66]).bind
        (in_order 30) =
      some [10, 11, 20, 30, 40, 45, 50, 55, 60, 65, 66, 70] := by
  decide

/-- C3: refuted.  When the sibling passed to `remove_helper` is black and
both of its children are black (absent children counting as black), the
fixup returns the tree completely unchanged: the sibling is not recolored
red and nothing continues at the parent — both all-black arms of the source
are empty blocks. -/
theorem remove_helper_black_sibling_noop (t : Tree) (idx : Nat) (b : Bool)
    (hc : getColor t idx = false)
    (hl : (match (getE t idx).left with
           | some lc => getColor t lc
           | none => false) = false)
    (hr : (match (getE t idx).right with
           | some rc => getColor t rc
           | none => false) = false) :
    remove_helper t (some idx) b = some t := by
  unfold remove_helper
  cases b <;> simp [hc, hl, hr]

theorem remove_helper_black_sibling_noop_witness :
    getColor tAllBlack 0 = false ∧
      remove_helper tAllBlack (some 0) true = some tAllBlack :=
  ⟨by decide,
   remove_helper_black_sibling_noop tAllBlack 0 true (by decide) (by decide) (by decide)⟩

/-- C6: refuted on the color-swap part.  Whenever a single rotation
(`left_left_rotation` or `right_right_rotation`) completes, the entire color
table is unchanged: the source rewires links only and never swaps the colors
of the displaced node and the displacing node. -/
theorem single_rotation_colors_unchanged (t : Tree) (i : Nat) :
    (∀ u, left_left_rotation t i = some u → u.color = t.color) ∧
    (∀ u, right_right_rotation t i = some u → u.color = t.color) := by
  constructor
  · intro u h
    simp only [left_left_rotation] at h
    repeat' split at h
    all_goals first
      | exact Option.noConfusion h
      | (injection h with h2; subst h2; rfl)
  · intro u h
    simp only [right_right_rotation] at h
    repeat' split at h
    all_goals first
      | exact Option.noConfusion h
      | (injection h with h2; subst h2; rfl)

theorem single_rotation_colors_unchanged_witness :
    tRotLL.color = tRot.color ∧ tRotRR.color = tRot.color :=
  ⟨(single_rotation_colors_unchanged tRot 1).1 tRotLL (by decide),
   (single_rotation_colors_unchanged tRot 1).2 tRotRR (by decide)⟩

/-- Searching from an absent child never reports a hit. -/
theorem contains_none_no_hit (f : Nat) (t : Tree) (v : Int) (i : Nat)
    (h : contains_recursive f t none v = some (some i)) : False := by
  cases f <;> simp [contains_recursive] at h

/-- If the search finds `v` below slot `r`, then `insert_helper` walks the
same comparison path, reaches the equal node, and returns the untouched tree
with `ret = none` (nothing inserted). -/
theorem insert_helper_found (f : Nat) : ∀ (t : Tree) (v : Int) (r i : Nat),
    contains_recursive f t (some r) v = some (some i) →
    insert_helper f t v (some r) = some (t, none, true) := by
  induction f with
  | zero => intro t v r i h; simp [contains_recursive] at h
  | succ f ih =>
    intro t v r i h
    simp only [contains_recursive] at h
    by_cases he : getData t r = v
    · have h1 : ¬ v < getData t r := by simp [he]
      have h2 : ¬ v > getData t r := by simp [he]
      simp [insert_helper, h1, h2]
    · rw [if_neg he] at h
      by_cases hg : getData t r > v
      · rw [if_pos hg] at h
        rcases hL : (getE t r).left with _ | j
        · rw [hL] at h
          exact (contains_none_no_hit f t v i h).elim
        · rw [hL] at h
          have hin := ih t v j i h
          have h1 : v < getData t r := hg
          have h2 : ¬ v > getData t r := lt_asymm h1
          simp [insert_helper, h1, h2, hL, hin]
      · rw [if_neg hg] at h
        have hlt : getData t r < v := lt_of_le_of_ne (not_lt.mp hg) he
        rcases hR : (getE t r).right with _ | j
        · rw [hR] at h
          exact (contains_none_no_hit f t v i h).elim
        · rw [hR] at h
          have hin := ih t v j i h
          have h1 : ¬ v < getData t r := lt_asymm hlt
          have h2 : v > getData t r := hlt
          simp [insert_helper, h1, h2, hR, hin]

/-- C7: confirmed.  Whenever the search (with enough fuel) finds `v`
already present, `insert` returns the tree completely unchanged, and
whenever the search reports `v` absent, `remove` returns the tree
completely unchanged — identical state, hence same membership, same
`in_order` sequence and same structure. -/
theorem insert_present_remove_absent_noop (f : Nat) (t : Tree) (v : Int) :
    ((∃ i, contains_recursive f t t.root v = some (some i)) → insert f t v = some t) ∧
    (contains_recursive f t t.root v = some none → remove f t v = some t) := by
  constructor
  · rintro ⟨i, h⟩
    rcases hr : t.root with _ | r
    · rw [hr] at h
      exact (contains_none_no_hit f t v i h).elim
    · rw [hr] at h
      have hh := insert_helper_found f t v r i h
      simp [insert, hr, hh]
  · intro h
    cases f with
    | zero => simp [contains_recursive] at h
    | succ f =>
      simp [remove, remove_recursive, h]

theorem insert_present_remove_absent_noop_witness :
    insert 3 tOne 2 = some tOne ∧ remove 3 tOne 5 = some tOne :=
  ⟨(insert_present_remove_absent_noop 3 tOne 2).1 ⟨0, by decide⟩,
   (insert_present_remove_absent_noop 3 tOne 5).2 (by decide)⟩

/-- The in-order and pre-order helpers agree up to multiset of values. -/
theorem ino_pre_multiset (f : Nat) : ∀ (t : Tree) (idx : Option Nat),
    (ino_recursive f t idx).map Multiset.ofList =
      (pre_recursive f t idx).map Multiset.ofList := by
  induction f with
  | zero => intro t idx; rfl
  | succ f ih =>
    intro t idx
    rcases idx with _ | i
    · rfl
    · simp only [ino_recursive, pre_recursive]
      have hL := ih t (getE t i).left
      have hR := ih t (getE t i).right
      rcases hl : ino_recursive f t (getE t i).left with _ | l <;>
        rcases hp : pre_recursive f t (getE t i).left with _ | l2 <;>
          rw [hl, hp] at hL <;> simp only [Option.map_none', Option.map_some', Option.some.injEq] at hL
      · simp [hl, hp]
      · exact absurd hL (by simp)
      · exact absurd hL (by simp)
      · rcases hr : ino_recursive f t (getE t i).right with _ | r <;>
          rcases hq : pre_recursive f t (getE t i).right with _ | r2 <;>
            rw [hr, hq] at hR <;> simp only [Option.map_none', Option.map_some', Option.some.injEq] at hR
        · simp [hl, hp, hr, hq]
        · exact absurd hR (by simp)
        · exact absurd hR (by simp)
        · have pl : l.Perm l2 := Multiset.coe_eq_coe.mp hL
          have pr : r.Perm r2 := Multiset.coe_eq_coe.mp hR
          simp only [Option.bind_eq_bind, Option.some_bind, Option.map_some',
            Option.some.injEq]
          exact Multiset.coe_eq_coe.mpr
            (List.perm_middle.trans ((pl.append pr).cons (getData t i)))

/-- The in-order and post-order helpers agree up to multiset of values. -/
theorem ino_post_multiset (f : Nat) : ∀ (t : Tree) (idx : Option Nat),
    (ino_recursive f t idx).map Multiset.ofList =
      (post_recursive f t idx).map Multiset.ofList := by
  induction f with
  | zero => intro t idx; rfl
  | succ f ih =>
    intro t idx
    rcases idx with _ | i
    · rfl
    · simp only [ino_recursive, post_recursive]
      have hL := ih t (getE t i).left
      have hR := ih t (getE t i).right
      rcases hl : ino_recursive f t (getE t i).left with _ | l <;>
        rcases hp : post_recursive f t (getE t i).left with _ | l2 <;>
          rw [hl, hp] at hL <;> simp only [Option.map_none', Option.map_some', Option.some.injEq] at hL
      · simp [hl, hp]
      · exact absurd hL (by simp)
      · exact absurd hL (by simp)
      · rcases hr : ino_recursive f t (getE t i).right with _ | r <;>
          rcases hq : post_recursive f t (getE t i).right with _ | r2 <;>
            rw [hr, hq] at hR <;> simp only [Option.map_none', Option.map_some', Option.some.injEq] at hR
        · simp [hl, hp, hr, hq]
        · exact absurd hR (by simp)
        · exact absurd hR (by simp)
        · have pl : l.Perm l2 := Multiset.coe_eq_coe.mp hL
          have pr : r.Perm r2 := Multiset.coe_eq_coe.mp hR
          simp only [Option.bind_eq_bind, Option.some_bind, Option.map_some',
            Option.some.injEq]
          have h1 : (l ++ getData t i :: r).Perm (getData t i :: (l ++ r)) :=
            List.perm_middle
          have h2 : (getData t i :: (l ++ r)).Perm (getData t i :: (l2 ++ r2)) :=
            (pl.append pr).cons (getData t i)
          have h3 : ((l2 ++ r2) ++ getData t i :: []).Perm
              (getData t i :: ((l2 ++ r2) ++ [])) := List.perm_middle
          rw [List.append_nil] at h3
          exact Multiset.coe_eq_coe.mpr (h1.trans (h2.trans h3.symm))

/-- C9: confirmed.  For every tree and fuel, the values returned by
`in_order`, `pre_order` and `post_order` form the same multiset (only the
order differs), and on an empty tree (root absent) all three traversals
return the empty sequence. -/
theorem traversal_multisets (f : Nat) (t : Tree) :
    ((in_order f t).map Multiset.ofList = (pre_order f t).map Multiset.ofList ∧
     (in_order f t).map Multiset.ofList = (post_order f t).map Multiset.ofList) ∧
    (t.root = none →
      in_order f t = some [] ∧ pre_order f t = some [] ∧ post_order f t = some []) := by
  constructor
  · constructor
    · rcases hr : t.root with _ | r
      · simp [in_order, pre_order, hr]
      · simpa [in_order, pre_order, hr] using ino_pre_multiset f t (some r)
    · rcases hr : t.root with _ | r
      · simp [in_order, post_order, hr]
      · simpa [in_order, post_order, hr] using ino_post_multiset f t (some r)
  · intro h
    simp [in_order, pre_order, post_order, h]

theorem traversal_multisets_witness :
    Tree.new.root = none ∧
      (in_order 3 Tree.new = some [] ∧ pre_order 3 Tree.new = some [] ∧
        post_order 3 Tree.new = some []) :=
  ⟨rfl, (traversal_multisets 3 Tree.new).2 rfl⟩

end RBT
